import Mathlib

/-! # The Lua plugin bridge of `micro` (`cmd/micro/plugin.go`)

A shallow embedding of `Call`, `CallSync`, `CallAsync`, the serve loop of
`InitLua`, `LoadPlugins` and `LuaFunctionBinding`, followed by the properties
proved about them.

The Lua interpreter (`github.com/yuin/gopher-lua`), the Go bridge
(`github.com/layeh/gopher-luar`), the file system and the embedded asset store
are libraries outside `plugin.go`.  They enter the development as the
operations `plugin.go` calls on them (`LuaAPI`, `Host`); every theorem is
stated for an arbitrary implementation of these operations.
-/

namespace Micro

/-! ## Go and Lua values -/

/-- A Go `error` value: `none` is `nil`, `some msg` an error with message `msg`. -/
abbrev GoError := Option String

/-- Lower-case hexadecimal rendering used by the `%p` verb of `fmt`. -/
def fmtPtr (p : Nat) : String := "0x" ++ String.mk (Nat.toDigits 16 p)

/-- The value kinds of gopher-lua (`LValueType`): `LTNil`, `LTBool`, `LTNumber`,
`LTString`, `LTFunction`, `LTUserData`, `LTThread`, `LTTable`, `LTChannel`.
Reference values carry their address; a number carries its integral value
(non-integral numbers are outside the embedding). -/
inductive LValue where
  | LNil
  | LBool (b : Bool)
  | LNumber (n : Int)
  | LString (s : String)
  | LFunction (ptr : Nat)
  | LUserData (ptr : Nat)
  | LThread (ptr : Nat)
  | LTable (ptr : Nat)
  | LChannel (ptr : Nat)
  deriving DecidableEq, Repr

/-- The method `String()` of `lua.LValue`, one case per value kind as in
gopher-lua's `value.go`: `nil` renders as the text `nil`, a Lua string renders
as its own contents, reference values as `<kind>: <address>`. -/
def LValue.String : LValue → String
  | .LNil => "nil"
  | .LBool b => if b then "true" else "false"
  | .LNumber n => toString n
  | .LString s => s
  | .LFunction p => "function: " ++ fmtPtr p
  | .LUserData p => "userdata: " ++ fmtPtr p
  | .LThread p => "thread: " ++ fmtPtr p
  | .LTable p => "table: " ++ fmtPtr p
  | .LChannel p => "channel: " ++ fmtPtr p

/-- The operations of `*lua.LState` and of `luar` that `plugin.go` uses, over an
interpreter state `σ`.  Each operation that can run script code returns the
Go error it reports together with the interpreter state it leaves behind. -/
structure LuaAPI (σ : Type) where
  /-- The call `vm.GetGlobal(name)`: the value the lookup of a global name yields
  (`LNil` if unbound) and the interpreter state the lookup leaves behind.  The
  lookup goes through the field access of the globals table, which runs an
  `__index` metamethod when a script has installed one, so it can run script
  code and change the state. -/
  GetGlobal : σ → String → LValue × σ
  /-- The call `luar.New(vm, args)` for a `[]string`: the Lua value wrapping the slice. -/
  New : σ → List String → LValue × σ
  /-- The call `vm.CallByParam(lua.P{Fn: fn, NRet: 0, Protect: true}, args...)`: a
  protected call, so a runtime error comes back as the returned error. -/
  CallByParam : σ → LValue → List LValue → GoError × σ
  /-- The call `vm.DoFile(path)`. -/
  DoFile : σ → String → GoError × σ
  /-- The call `vm.DoString(source)`. -/
  DoString : σ → String → GoError × σ

/-- One protected invocation performed through `CallByParam`: the callee and
the argument list handed to it. -/
structure Invocation where
  fn : LValue
  args : List LValue
  deriving DecidableEq, Repr

/-- What a run of `Call` produces: the returned error, the interpreter state
afterwards, and the protected invocations it performed, in order. -/
structure CallResult (σ : Type) where
  err : GoError
  vm : σ
  invoked : List Invocation

/-! ## `Call` -/

/-- The function `Call(vm, function, args)`, lines 22-34. -/
def Call {σ : Type} (L : LuaAPI σ) (vm : σ) (function : String) (args : List String) :
    CallResult σ :=
  let looked := L.GetGlobal vm function
  let luaFunc := looked.1
  if luaFunc.String = "nil" then
    { err := some ("function does not exist: " ++ function), vm := looked.2, invoked := [] }
  else
    let luaArgs := L.New looked.2 args
    let r := L.CallByParam luaArgs.2 luaFunc [luaArgs.1]
    { err := r.1, vm := r.2, invoked := [⟨luaFunc, [luaArgs.1]⟩] }

/-! ## The channels, the serve loop and the submission API -/

/-- The struct `LuaFunction`, lines 61-64: a call request. -/
structure LuaFunction where
  name : String
  args : List String
  deriving DecidableEq, Repr

/-- Capacity of both channels, `make(chan ..., 100)` on lines 90-91. -/
def chanCap : Nat := 100

/-- A goroutine that has sent a request and has its receive `<-functionDone`
still ahead: the caller inside `CallSync` (line 74, `sync = true`) or the
waiter spawned by `CallAsync` (line 83, `sync = false`).  The field `id` is the
index of its request among all submissions; it is bookkeeping of the model
and steers no transition. -/
structure Receiver where
  id : Nat
  sync : Bool
  deriving DecidableEq, Repr

/-- An argument handed to `TermMessage`: a string or an error value. -/
inductive Msg where
  | text (s : String)
  | error (e : String)
  deriving DecidableEq, Repr

/-- The state shared by the goroutines of `plugin.go`.

Program state: the two buffered channels (oldest element first), the
interpreter owned by the dispatcher, the dispatcher's local `err` while it
stands between lines 111 and 112 (`held`), the goroutines with a pending
receive, the number of `RedrawAll` calls, the values returned so far to the
callers of `CallSync` and `CallAsync`, and the `TermMessage` calls.

History kept for stating properties: every submission, every request the
dispatcher has consumed, every value it has sent, and for every completed
receive the pair (request index of the receiver, request index of the signal).
Channel elements carry the request index they stem from. -/
structure Sys (σ : Type) where
  functionChan : List (Nat × LuaFunction)
  functionDone : List (Nat × GoError)
  luaVM : σ
  held : Option (Nat × GoError)
  receivers : List Receiver
  redraws : Nat
  returned : List (Nat × GoError)
  messages : List Msg
  submitted : List (LuaFunction × Bool)
  consumed : List LuaFunction
  sent : List GoError
  delivered : List (Nat × Nat)

/-- State right after `InitLua` has made the channels and the dispatcher has
reached its loop with interpreter state `vm`. -/
def Sys.init {σ : Type} (vm : σ) : Sys σ :=
  { functionChan := [], functionDone := [], luaVM := vm, held := none, receivers := [],
    redraws := 0, returned := [], messages := [], submitted := [], consumed := [],
    sent := [], delivered := [] }

/-- The send `functionChan <- f` of lines 72 and 81 by a goroutine that will
later receive from `functionDone`.  It blocks (no result) while the channel is
full.  For `CallAsync` the caller gets `nil` back right away (line 86). -/
def submit {σ : Type} (s : Sys σ) (f : LuaFunction) (sync : Bool) : Option (Sys σ) :=
  if s.functionChan.length < chanCap then
    some { s with
      functionChan := s.functionChan ++ [(s.submitted.length, f)]
      receivers := s.receivers ++ [⟨s.submitted.length, sync⟩]
      returned := if sync then s.returned else s.returned ++ [(s.submitted.length, none)]
      submitted := s.submitted ++ [(f, sync)] }
  else none

/-- Lines 110-111 of the serve loop: receive a request (blocks while the
channel is empty) and run `Call` on it. -/
def dispRecv {σ : Type} (L : LuaAPI σ) (s : Sys σ) : Option (Sys σ) :=
  match s.held, s.functionChan with
  | none, (id, f) :: rest =>
    let r := Call L s.luaVM f.name f.args
    some { s with
      functionChan := rest
      luaVM := r.vm
      held := some (id, r.err)
      consumed := s.consumed ++ [f] }
  | _, _ => none

/-- Line 112 of the serve loop: `functionDone <- err` (blocks while the channel
is full). -/
def dispSend {σ : Type} (s : Sys σ) : Option (Sys σ) :=
  match s.held with
  | some sig =>
    if s.functionDone.length < chanCap then
      some { s with
        functionDone := s.functionDone ++ [sig]
        held := none
        sent := s.sent ++ [sig.2] }
    else none
  | none => none

/-- The receive `<-functionDone` followed by `RedrawAll()` of the goroutine
whose request has index `id` (lines 74-76 and 83-84); blocks while the channel
is empty.  Yields the received value and the new state; only a `CallSync`
caller returns the value. -/
def wake {σ : Type} (s : Sys σ) (id : Nat) : Option (GoError × Sys σ) :=
  match s.receivers.find? (fun r => r.id == id), s.functionDone with
  | some r, (sid, err) :: rest =>
    some (err, { s with
      functionDone := rest
      receivers := s.receivers.eraseP (fun r => r.id == id)
      redraws := s.redraws + 1
      returned := if r.sync then s.returned ++ [(id, err)] else s.returned
      delivered := s.delivered ++ [(id, sid)] })
  | _, _ => none

/-- The moves of the interleaving model: which goroutine runs next. -/
inductive Action where
  | callSync (f : LuaFunction)
  | callAsync (f : LuaFunction)
  | recv
  | send
  | wake (id : Nat)
  deriving DecidableEq, Repr

/-- One move of the interleaving model; `none` when the chosen goroutine is
blocked. -/
def step {σ : Type} (L : LuaAPI σ) (s : Sys σ) : Action → Option (Sys σ)
  | .callSync f => submit s f true
  | .callAsync f => submit s f false
  | .recv => dispRecv L s
  | .send => dispSend s
  | .wake id => (wake s id).map Prod.snd

/-- An execution: the moves of a schedule one after the other. -/
def run {σ : Type} (L : LuaAPI σ) : Sys σ → List Action → Option (Sys σ)
  | s, [] => some s
  | s, a :: as => (step L s a).bind (fun s1 => run L s1 as)

/-- An execution in which at most one request is outstanding at any time: after
every move at most one goroutine has a receive pending. -/
def serialRun {σ : Type} (L : LuaAPI σ) : Sys σ → List Action → Option (Sys σ)
  | s, [] => some s
  | s, a :: as =>
    (step L s a).bind (fun s1 =>
      if s1.receivers.length ≤ 1 then serialRun L s1 as else none)

/-- The next move of the dispatcher goroutine. -/
def dispatch {σ : Type} (L : LuaAPI σ) (s : Sys σ) : Option (Sys σ) :=
  match s.held with
  | none => dispRecv L s
  | some _ => dispSend s

/-- A caller blocked at `<-functionDone` while only the dispatcher runs: the
dispatcher moves until a signal is in the channel.  No result when the fuel is
used up or the dispatcher itself is blocked. -/
def awaitDone {σ : Type} (L : LuaAPI σ) : Nat → Sys σ → Option (Sys σ)
  | fuel, s =>
    if s.functionDone ≠ [] then some s
    else match fuel with
      | 0 => none
      | n + 1 => (dispatch L s).bind (awaitDone L n)

/-- The function `CallSync(function, args)`, lines 69-77, run while no other
caller moves: send the request, wait for a signal, redraw, return it. -/
def CallSync {σ : Type} (L : LuaAPI σ) (s : Sys σ) (function : String) (args : List String) :
    Option (GoError × Sys σ) :=
  (submit s ⟨function, args⟩ true).bind (fun s1 =>
    (awaitDone L 2 s1).bind (fun s2 => wake s2 s.submitted.length))

/-- The function `CallAsync(function, args)`, lines 79-87, up to its return: send
the request, spawn the waiter, return `nil`.  The waiter's later receive is the
move `Action.wake`. -/
def CallAsync {σ : Type} (s : Sys σ) (function : String) (args : List String) :
    Option (GoError × Sys σ) :=
  (submit s ⟨function, args⟩ false).map (fun s1 => (none, s1))

/-- The call `TermMessage(m)`: the message surface records what it is given. -/
def TermMessage {σ : Type} (s : Sys σ) (m : Msg) : Sys σ :=
  { s with messages := s.messages ++ [m] }

/-- The function `LuaFunctionBinding(function)`, lines 40-48: the returned
closure, applied to a view `v` in state `s`. -/
def LuaFunctionBinding {σ View : Type} (L : LuaAPI σ) (function : String) (_v : View)
    (s : Sys σ) : Option (Bool × Sys σ) :=
  match CallSync L s function [] with
  | none => none
  | some (err, s1) =>
    match err with
    | some e => some (false, TermMessage s1 (.error e))
    | none => some (false, s1)

/-- Outcomes of `Call` on a list of requests served one after the other by the
same interpreter, starting in state `vm`. -/
def outcomes {σ : Type} (L : LuaAPI σ) : σ → List LuaFunction → List GoError
  | _, [] => []
  | vm, f :: fs => (Call L vm f.name f.args).err :: outcomes L (Call L vm f.name f.args).vm fs

/-- Interpreter state after `Call` has served a list of requests in order. -/
def vmAfter {σ : Type} (L : LuaAPI σ) : σ → List LuaFunction → σ
  | vm, [] => vm
  | vm, f :: fs => vmAfter L (Call L vm f.name f.args).vm fs

/-- Calls of `CallSync` strictly one after the other; yields for every call its
returned value and the state right after its return. -/
def callSyncAll {σ : Type} (L : LuaAPI σ) : Sys σ → List LuaFunction →
    Option (List (GoError × Sys σ))
  | _, [] => some []
  | s, f :: fs =>
    (CallSync L s f.name f.args).bind (fun r =>
      (callSyncAll L r.2 fs).map (fun rs => r :: rs))

/-! ## `LoadPlugins` -/

/-- The two methods of `os.FileInfo` that `LoadPlugins` uses. -/
structure FileInfo where
  Name : String
  IsDir : Bool
  deriving DecidableEq, Repr

/-- The surroundings `LoadPlugins` reads: the package variables `configDir` and
`preInstalledPlugins`, the directory listing `ioutil.ReadDir` (its error is
discarded on lines 119 and 123, so a failed listing is the empty list) and the
embedded asset store `Asset` (`none` when it returns an error). -/
structure Host where
  configDir : String
  ReadDir : String → List FileInfo
  Asset : String → Option String
  preInstalledPlugins : List String

/-- Initial value of the package variable `preInstalledPlugins`, lines 14-17. -/
def preInstalledPlugins : List String := ["go", "linter"]

/-- What `LoadPlugins` changes: the interpreter, the package variable
`loadedPlugins` and the message surface. -/
structure Loader (σ : Type) where
  luaVM : σ
  loadedPlugins : List String
  messages : List Msg

/-- Body of the inner loop, lines 125-131, for one entry `f` of the directory of
`pluginName`. -/
def loadEntry {σ : Type} (L : LuaAPI σ) (H : Host) (pluginName : String) (w : Loader σ)
    (f : FileInfo) : Loader σ :=
  if f.Name = pluginName ++ ".lua" then
    match L.DoFile w.luaVM (H.configDir ++ "/plugins/" ++ pluginName ++ "/" ++ f.Name) with
    | (some err, vm) =>
      { luaVM := vm, loadedPlugins := w.loadedPlugins, messages := w.messages ++ [.error err] }
    | (none, vm) =>
      { luaVM := vm, loadedPlugins := w.loadedPlugins ++ [pluginName], messages := w.messages }
  else w

/-- Body of the outer loop, lines 121-133, for one entry of the plugins
directory. -/
def loadDir {σ : Type} (L : LuaAPI σ) (H : Host) (w : Loader σ) (plugin : FileInfo) :
    Loader σ :=
  if plugin.IsDir then
    (H.ReadDir (H.configDir ++ "/plugins/" ++ plugin.Name)).foldl
      (loadEntry L H plugin.Name) w
  else w

/-- The first loop of `LoadPlugins`, lines 119-134: the external pass. -/
def loadExternal {σ : Type} (L : LuaAPI σ) (H : Host) (w : Loader σ) : Loader σ :=
  (H.ReadDir (H.configDir ++ "/plugins")).foldl (loadDir L H) w

/-- Body of the second loop, lines 137-147, for one built-in identifier. -/
def loadBuiltin {σ : Type} (L : LuaAPI σ) (H : Host) (w : Loader σ) (pluginName : String) :
    Loader σ :=
  match H.Asset ("runtime/plugins/" ++ pluginName ++ "/" ++ pluginName ++ ".lua") with
  | none =>
    { luaVM := w.luaVM, loadedPlugins := w.loadedPlugins,
      messages := w.messages ++ [.text ("Error loading pre-installed plugin: " ++ pluginName)] }
  | some data =>
    match L.DoString w.luaVM data with
    | (some err, vm) =>
      { luaVM := vm, loadedPlugins := w.loadedPlugins, messages := w.messages ++ [.error err] }
    | (none, vm) =>
      { luaVM := vm, loadedPlugins := w.loadedPlugins ++ [pluginName], messages := w.messages }

/-- The function `LoadPlugins(luaVM)`, lines 118-149. -/
def LoadPlugins {σ : Type} (L : LuaAPI σ) (H : Host) (w : Loader σ) : Loader σ :=
  H.preInstalledPlugins.foldl (loadBuiltin L H) (loadExternal L H w)

/-! ### The plugins a pass is expected to record -/

/-- Path of the entry file of an external plugin. -/
def entryPath (H : Host) (P : String) : String :=
  H.configDir ++ "/plugins/" ++ P ++ "/" ++ (P ++ ".lua")

/-- Path of the bundle of a built-in plugin in the asset store. -/
def bundlePath (name : String) : String :=
  "runtime/plugins/" ++ name ++ "/" ++ name ++ ".lua"

/-- An entry of the plugins directory is a loadable plugin: it is a directory,
it contains an entry named after it with the extension `.lua`, and loading
that file succeeds (`okFile`). -/
def loadable (H : Host) (okFile : String → Bool) (P : FileInfo) : Bool :=
  P.IsDir && (H.ReadDir (H.configDir ++ "/plugins/" ++ P.Name)).any
    (fun f => f.Name == P.Name ++ ".lua") && okFile (entryPath H P.Name)

/-- Names recorded for one entry of the plugins directory when a listing may
repeat a name: one record per matching entry whose load succeeds. -/
def recordsOf (H : Host) (okFile : String → Bool) (P : FileInfo) : List String :=
  if P.IsDir then
    ((H.ReadDir (H.configDir ++ "/plugins/" ++ P.Name)).filter
      (fun f => f.Name == P.Name ++ ".lua" && okFile (entryPath H P.Name))).map
      (fun _ => P.Name)
  else []

/-- Names the external pass is expected to record, in listing order. -/
def externalNames (H : Host) (okFile : String → Bool) : List String :=
  ((H.ReadDir (H.configDir ++ "/plugins")).filter (loadable H okFile)).map FileInfo.Name

/-- A built-in identifier loads: its bundle resolves and its source loads
without error (`okSource`). -/
def builtinOk (H : Host) (okSource : String → Bool) (name : String) : Bool :=
  match H.Asset (bundlePath name) with
  | some data => okSource data
  | none => false

/-- The string messages among the `TermMessage` calls. -/
def textsOf (ms : List Msg) : List String :=
  ms.filterMap (fun m => match m with | .text t => some t | .error _ => none)

/-! ## Concrete instances -/

/-- A small interpreter for concrete instances.  Its state is the list of
global bindings, and a lookup only reads it; function `0` succeeds, every
other function raises a runtime
error, and calling a value that is no function is an error as well.  Loading
fails exactly for the file `/cfg/plugins/bad/bad.lua` and the source `broken`. -/
def sampleLua : LuaAPI (List (String × LValue)) where
  GetGlobal vm name := ((vm.lookup name).getD .LNil, vm)
  New vm _ := (.LUserData 1, vm)
  CallByParam vm fn _ :=
    match fn with
    | .LFunction 0 => (none, vm)
    | .LFunction _ => (some "runtime error", vm)
    | _ => (some "attempt to call a non-function object", vm)
  DoFile vm path :=
    (if path = "/cfg/plugins/bad/bad.lua" then some "syntax error" else none, vm)
  DoString vm src := (if src = "broken" then some "syntax error" else none, vm)

/-- The effect of the `__index` function of `metaLua`: it adds one to the number
held by the global `lookups`. -/
def countLookup (vm : List (String × LValue)) : List (String × LValue) :=
  match vm.lookup "lookups" with
  | some (.LNumber n) => ("lookups", .LNumber (n + 1)) :: vm.filter (fun b => b.1 != "lookups")
  | _ => vm

/-- The sample interpreter after a script has given the globals table a
metatable whose `__index` function counts in the global `lookups` and returns
nil, as in `setmetatable(_G, {__index = function(t, k) rawset(t, "lookups",
rawget(t, "lookups") + 1) end})`: the lookup of an unbound name runs that
function. -/
def metaLua : LuaAPI (List (String × LValue)) where
  GetGlobal vm name :=
    match vm.lookup name with
    | some v => (v, vm)
    | none => (.LNil, countLookup vm)
  New := sampleLua.New
  CallByParam := sampleLua.CallByParam
  DoFile := sampleLua.DoFile
  DoString := sampleLua.DoString

/-- Globals of `metaLua` before any lookup of an unbound name. -/
def metaVM : List (String × LValue) := [("lookups", .LNumber 0)]

/-- Globals of the concrete instances: `ok` is a function that succeeds, `boom`
a function that fails, and `shadow` holds the Lua string `nil`, as after the
script statement `shadow = "nil"`. -/
def sampleVM : List (String × LValue) :=
  [("ok", .LFunction 0), ("boom", .LFunction 1), ("shadow", .LString "nil")]

/-- What the serve loop maintains with respect to the interpreter state `vm0` it
started with: the values sent so far, followed by the one the dispatcher may
be holding, are the outcomes of `Call` on the consumed requests in order, and
the interpreter is the one left by those calls. -/
def ServeInv {σ : Type} (L : LuaAPI σ) (vm0 : σ) (s : Sys σ) : Prop :=
  s.sent ++ (s.held.map Prod.snd).toList = outcomes L vm0 s.consumed ∧
  s.luaVM = vmAfter L vm0 s.consumed

/-- Every goroutine with a pending receive has exactly one request or signal in
flight: in the request channel, in the dispatcher's hands, or in the
completion channel. -/
def Balanced {σ : Type} (s : Sys σ) : Prop :=
  s.receivers.length = s.functionChan.length + s.held.toList.length + s.functionDone.length

/-- A schedule of `n` iterations of the serve loop. -/
def serveSchedule : Nat → List Action
  | 0 => []
  | n + 1 => .recv :: .send :: serveSchedule n

/-- Requests of the concrete instances: a failing one first, then one that
succeeds, then one whose function raises an error. -/
def sampleRequests : List LuaFunction :=
  [⟨"missing", []⟩, ⟨"ok", ["x"]⟩, ⟨"boom", []⟩]

/-- A schedule in which two requests are submitted, the first one (a failing
one) is served completely and the second one has just been consumed. -/
def sampleServeSchedule : List Action :=
  [.callSync ⟨"missing", []⟩, .callAsync ⟨"ok", ["x"]⟩, .recv, .send, .recv]

/-- The state the sample interpreter reaches under `sampleServeSchedule`. -/
def sampleServeState : Sys (List (String × LValue)) :=
  (run sampleLua (Sys.init sampleVM) sampleServeSchedule).getD (Sys.init sampleVM)

/-- A schedule that serves one asynchronous request completely, so the state it
ends in is idle again. -/
def sampleIdleSchedule : List Action :=
  [.callAsync ⟨"boom", []⟩, .recv, .send, .wake 0]

/-- The state the sample interpreter reaches under `sampleIdleSchedule`. -/
def sampleIdleState : Sys (List (String × LValue)) :=
  (run sampleLua (Sys.init sampleVM) sampleIdleSchedule).getD (Sys.init sampleVM)

/-- What executions with at most one outstanding request maintain: at most one
goroutine has a receive pending, every request or signal in flight stems from
the request of a goroutine that is still waiting, and every completed receive
took the signal of the receiver's own request. -/
def SerialInv {σ : Type} (s : Sys σ) : Prop :=
  Balanced s ∧
  (∀ r ∈ s.receivers,
    (∀ q ∈ s.functionChan, q.1 = r.id) ∧ (∀ q, s.held = some q → q.1 = r.id) ∧
    (∀ q ∈ s.functionDone, q.1 = r.id)) ∧
  (∀ p ∈ s.delivered, p.1 = p.2)

/-- The schedule of the crossed delivery: `CallAsync` submits `f`, `CallSync`
submits `g`, the dispatcher serves `f`, the `CallSync` caller (request 1) takes
that signal, the dispatcher serves `g`, and the waiter of `CallAsync`
(request 0) takes the signal of `g`. -/
def raceSchedule (f g : LuaFunction) : List Action :=
  [.callAsync f, .callSync g, .recv, .send, .wake 1, .recv, .send, .wake 0]

/-- The state in which the waiter of an asynchronous request for an unbound name
finds the failure signal at the head of `functionDone`. -/
def sampleAsyncState : Sys (List (String × LValue)) :=
  (run sampleLua (Sys.init sampleVM) [.callAsync ⟨"missing", []⟩, .recv, .send]).getD
    (Sys.init sampleVM)

/-- The state after one `CallSync` of the unbound name `missing` from the initial
state of the sample interpreter. -/
def sampleBindingState : Sys (List (String × LValue)) :=
  ((CallSync sampleLua (Sys.init sampleVM) "missing" []).map Prod.snd).getD (Sys.init sampleVM)

/-- Names one pass of `LoadPlugins` is expected to record when listings may
repeat names: the records of the external pass, then the built-in identifiers
that load. -/
def passRecords (H : Host) (okFile okSource : String → Bool) : List String :=
  (H.ReadDir (H.configDir ++ "/plugins")).flatMap (recordsOf H okFile) ++
    H.preInstalledPlugins.filter (builtinOk H okSource)

/-- A configuration directory for concrete instances: the plugin `foo` with its
entry file, the directory `bar` holding only `baz.lua`, the plugin `bad` whose
entry file fails to load, and a plain file.  Of the two built-in identifiers
only `linter` has a bundle. -/
def sampleHost : Host where
  configDir := "/cfg"
  ReadDir := fun d =>
    if d = "/cfg/plugins" then
      [⟨"bad", true⟩, ⟨"bar", true⟩, ⟨"foo", true⟩, ⟨"notes.txt", false⟩]
    else if d = "/cfg/plugins/foo" then [⟨"README", false⟩, ⟨"foo.lua", false⟩]
    else if d = "/cfg/plugins/bar" then [⟨"baz.lua", false⟩]
    else if d = "/cfg/plugins/bad" then [⟨"bad.lua", false⟩]
    else []
  Asset := fun p => if p = "runtime/plugins/linter/linter.lua" then some "return 1" else none
  preInstalledPlugins := preInstalledPlugins

/-- Load success of files in the sample interpreter. -/
def sampleOkFile (p : String) : Bool := p != "/cfg/plugins/bad/bad.lua"

/-- Load success of sources in the sample interpreter. -/
def sampleOkSource (src : String) : Bool := src != "broken"

/-- A loader state with one plugin already recorded. -/
def sampleLoader : Loader (List (String × LValue)) :=
  { luaVM := sampleVM, loadedPlugins := ["earlier"], messages := [] }

/-! # Properties -/

/-! ## Rendering of Lua values -/

theorem digitChar_ne_n (k : Nat) (h : k < 10) : Nat.digitChar k ≠ 'n' := by
  interval_cases k <;> decide

theorem toDigitsCore_mem (fuel n : Nat) (acc : List Char) (c : Char)
    (h : c ∈ Nat.toDigitsCore 10 fuel n acc) : c ∈ acc ∨ c ≠ 'n' := by
  induction fuel generalizing n acc with
  | zero => left; simpa [Nat.toDigitsCore] using h
  | succ k ih =>
    simp only [Nat.toDigitsCore] at h
    split at h
    · rcases List.mem_cons.1 h with h1 | h1
      · right; rw [h1]; exact digitChar_ne_n _ (Nat.mod_lt _ (by decide))
      · left; exact h1
    · rcases ih _ _ h with h1 | h1
      · rcases List.mem_cons.1 h1 with h2 | h2
        · right; rw [h2]; exact digitChar_ne_n _ (Nat.mod_lt _ (by decide))
        · left; exact h2
      · right; exact h1

theorem natRepr_ne_nil (n : Nat) : toString n ≠ "nil" := by
  intro h
  have h1 : (toString n).data = ['n', 'i', 'l'] := by rw [h]
  have h2 : 'n' ∈ Nat.toDigits 10 n := by
    have : (toString n).data = Nat.toDigits 10 n := rfl
    rw [← this, h1]; simp
  rcases toDigitsCore_mem _ _ _ _ h2 with h3 | h3
  · simp at h3
  · exact h3 rfl

theorem intRepr_ne_nil (n : Int) : toString n ≠ "nil" := by
  cases n with
  | ofNat m => exact natRepr_ne_nil m
  | negSucc m =>
    intro h
    have h1 : (toString (Int.negSucc m)).data = ['n', 'i', 'l'] := by rw [h]
    have h2 : (toString (Int.negSucc m)).data = '-' :: (toString (m+1)).data := rfl
    rw [h2] at h1
    simp at h1

theorem prefixed_ne_nil (a b : String) (h : 3 < a.length) : a ++ b ≠ "nil" := by
  intro e
  have : (a ++ b).length = 3 := by rw [e]; rfl
  rw [String.length_append] at this
  omega

/-- The only values that render as the text `nil` are the nil value and the
Lua string with the contents `nil`. -/
theorem String_eq_nil_iff (v : LValue) :
    v.String = "nil" ↔ v = .LNil ∨ v = .LString "nil" := by
  cases v with
  | LNil => simp [LValue.String]
  | LBool b => cases b <;> simp [LValue.String]
  | LNumber n => simpa [LValue.String] using intRepr_ne_nil n
  | LString s => simp [LValue.String]
  | LFunction p => simpa [LValue.String] using prefixed_ne_nil _ (fmtPtr p) (by decide)
  | LUserData p => simpa [LValue.String] using prefixed_ne_nil _ (fmtPtr p) (by decide)
  | LThread p => simpa [LValue.String] using prefixed_ne_nil _ (fmtPtr p) (by decide)
  | LTable p => simpa [LValue.String] using prefixed_ne_nil _ (fmtPtr p) (by decide)
  | LChannel p => simpa [LValue.String] using prefixed_ne_nil _ (fmtPtr p) (by decide)

/-! ## `Call` -/

/-- When the guard of line 24 does not fire, `Call` performs exactly one
protected invocation of the looked-up value with the wrapped `args` as its
single argument and returns the outcome of that invocation. -/
theorem Call_of_String_ne_nil {σ : Type} (L : LuaAPI σ) (vm : σ) (function : String)
    (args : List String) (h : (L.GetGlobal vm function).1.String ≠ "nil") :
    Call L vm function args =
      { err := (L.CallByParam (L.New (L.GetGlobal vm function).2 args).2
          (L.GetGlobal vm function).1 [(L.New (L.GetGlobal vm function).2 args).1]).1
        vm := (L.CallByParam (L.New (L.GetGlobal vm function).2 args).2
          (L.GetGlobal vm function).1 [(L.New (L.GetGlobal vm function).2 args).1]).2
        invoked := [⟨(L.GetGlobal vm function).1,
          [(L.New (L.GetGlobal vm function).2 args).1]⟩] } := by
  simp [Call, h]

/-- C1, as amended: for a name whose lookup yields `LNil`, `Call` returns the error
with the message `function does not exist: ` followed by the name, performs no
protected invocation, and hands back the interpreter state exactly as the
lookup left it; so the state is unchanged whenever the lookup itself changes
nothing, which is the case when no `__index` metamethod runs.  `Call` is a
function of its inputs, so every run on the same inputs gives this result. -/
theorem Call_unbound {σ : Type} (L : LuaAPI σ) (vm : σ) (function : String)
    (args : List String) (h : (L.GetGlobal vm function).1 = .LNil) :
    Call L vm function args =
      { err := some ("function does not exist: " ++ function)
        vm := (L.GetGlobal vm function).2
        invoked := [] } ∧
    (Call L vm function args).err ≠ none ∧
    ((L.GetGlobal vm function).2 = vm →
      Call L vm function args =
        { err := some ("function does not exist: " ++ function), vm := vm, invoked := [] }) := by
  refine ⟨by simp [Call, h, LValue.String], by simp [Call, h, LValue.String], ?_⟩
  intro hv
  simp [Call, h, LValue.String, hv]

/-- Concrete instance: the name `missing` in the sample interpreter, whose
lookups only read. -/
theorem Call_unbound_witness :
    (sampleLua.GetGlobal sampleVM "missing").1 = .LNil ∧
    (sampleLua.GetGlobal sampleVM "missing").2 = sampleVM ∧
    Call sampleLua sampleVM "missing" ["a", "b"] =
      { err := some ("function does not exist: " ++ "missing"), vm := sampleVM, invoked := [] } :=
  ⟨by decide, by decide,
    (Call_unbound sampleLua sampleVM "missing" ["a", "b"] (by decide)).2.2 (by decide)⟩

/-- Counterexample to C1 as the claim states it: in `metaLua` the lookup of the unbound name
`missing` yields `LNil` and `Call` returns the function-not-found error, but
the `__index` function has run and the interpreter state is no longer the one
`Call` was given (`lookups` went from 0 to 1). -/
theorem Call_unbound_changes_state :
    (metaLua.GetGlobal metaVM "missing").1 = .LNil ∧
    (Call metaLua metaVM "missing" []).err = some "function does not exist: missing" ∧
    (Call metaLua metaVM "missing" []).invoked = [] ∧
    (Call metaLua metaVM "missing" []).vm = [("lookups", .LNumber 1)] ∧
    (Call metaLua metaVM "missing" []).vm ≠ metaVM := by
  decide

/-- C2, at the failing input: the global `shadow` is bound to a value that is
not nil (the Lua string `nil`), yet `Call` answers with the function-not-found
error and performs no invocation, where a protected invocation of the value
would have reported a different error. -/
theorem Call_present_reported_missing :
    (sampleLua.GetGlobal sampleVM "shadow").1 = .LString "nil" ∧
    (sampleLua.GetGlobal sampleVM "shadow").1 ≠ .LNil ∧
    (Call sampleLua sampleVM "shadow" []).err = some "function does not exist: shadow" ∧
    (Call sampleLua sampleVM "shadow" []).invoked = [] ∧
    (sampleLua.CallByParam sampleVM (.LString "nil") [.LUserData 1]).1 =
      some "attempt to call a non-function object" := by
  decide

/-- A bound value other than the Lua string `nil` is invoked exactly once, with
the wrapped `args` as its single argument, and the outcome of the protected
invocation is what `Call` returns. -/
theorem Call_bound {σ : Type} (L : LuaAPI σ) (vm : σ) (function : String)
    (args : List String) (h1 : (L.GetGlobal vm function).1 ≠ .LNil)
    (h2 : (L.GetGlobal vm function).1 ≠ .LString "nil") :
    (Call L vm function args).invoked =
      [⟨(L.GetGlobal vm function).1, [(L.New (L.GetGlobal vm function).2 args).1]⟩] ∧
    (Call L vm function args).err =
      (L.CallByParam (L.New (L.GetGlobal vm function).2 args).2
        (L.GetGlobal vm function).1 [(L.New (L.GetGlobal vm function).2 args).1]).1 := by
  have h : (L.GetGlobal vm function).1.String ≠ "nil" := by
    rw [Ne, String_eq_nil_iff]; tauto
  rw [Call_of_String_ne_nil L vm function args h]
  exact ⟨rfl, rfl⟩

/-! ## The serve loop -/

theorem outcomes_append {σ : Type} (L : LuaAPI σ) (vm : σ) (xs ys : List LuaFunction) :
    outcomes L vm (xs ++ ys) = outcomes L vm xs ++ outcomes L (vmAfter L vm xs) ys := by
  induction xs generalizing vm with
  | nil => rfl
  | cons x xs ih => simp [outcomes, vmAfter, ih]

theorem vmAfter_append {σ : Type} (L : LuaAPI σ) (vm : σ) (xs ys : List LuaFunction) :
    vmAfter L vm (xs ++ ys) = vmAfter L (vmAfter L vm xs) ys := by
  induction xs generalizing vm with
  | nil => rfl
  | cons x xs ih => simp [vmAfter, ih]

theorem outcomes_length {σ : Type} (L : LuaAPI σ) (vm : σ) (xs : List LuaFunction) :
    (outcomes L vm xs).length = xs.length := by
  induction xs generalizing vm with
  | nil => rfl
  | cons x xs ih => simp [outcomes, ih]

theorem run_append {σ : Type} (L : LuaAPI σ) (s : Sys σ) (xs ys : List Action) :
    run L s (xs ++ ys) = (run L s xs).bind (fun s1 => run L s1 ys) := by
  induction xs generalizing s with
  | nil => rfl
  | cons x xs ih =>
    simp only [List.cons_append, run]
    cases step L s x with
    | none => rfl
    | some s1 => simpa using ih s1

theorem submit_eq_some {σ : Type} (s s1 : Sys σ) (f : LuaFunction) (b : Bool)
    (h : submit s f b = some s1) :
    s.functionChan.length < chanCap ∧
    s1 = { s with
      functionChan := s.functionChan ++ [(s.submitted.length, f)]
      receivers := s.receivers ++ [⟨s.submitted.length, b⟩]
      returned := if b then s.returned else s.returned ++ [(s.submitted.length, none)]
      submitted := s.submitted ++ [(f, b)] } := by
  unfold submit at h
  split at h
  · next hlt => exact ⟨hlt, (Option.some.inj h).symm⟩
  · exact absurd h (by simp)

theorem dispRecv_eq_some {σ : Type} (L : LuaAPI σ) (s s1 : Sys σ)
    (h : dispRecv L s = some s1) :
    ∃ id f rest, s.held = none ∧ s.functionChan = (id, f) :: rest ∧
    s1 = { s with
      functionChan := rest
      luaVM := (Call L s.luaVM f.name f.args).vm
      held := some (id, (Call L s.luaVM f.name f.args).err)
      consumed := s.consumed ++ [f] } := by
  unfold dispRecv at h
  split at h
  · next id f rest hh hc => exact ⟨id, f, rest, hh, hc, (Option.some.inj h).symm⟩
  · exact absurd h (by simp)

theorem dispSend_eq_some {σ : Type} (s s1 : Sys σ) (h : dispSend s = some s1) :
    ∃ sig, s.held = some sig ∧ s.functionDone.length < chanCap ∧
    s1 = { s with
      functionDone := s.functionDone ++ [sig]
      held := none
      sent := s.sent ++ [sig.2] } := by
  unfold dispSend at h
  split at h
  · next sig hh =>
    split at h
    · next hlt => exact ⟨sig, hh, hlt, (Option.some.inj h).symm⟩
    · exact absurd h (by simp)
  · exact absurd h (by simp)

theorem wake_eq_some {σ : Type} (s : Sys σ) (id : Nat) (e : GoError) (s1 : Sys σ)
    (h : wake s id = some (e, s1)) :
    ∃ r sid rest, s.receivers.find? (fun r => r.id == id) = some r ∧
    s.functionDone = (sid, e) :: rest ∧
    s1 = { s with
      functionDone := rest
      receivers := s.receivers.eraseP (fun r => r.id == id)
      redraws := s.redraws + 1
      returned := if r.sync then s.returned ++ [(id, e)] else s.returned
      delivered := s.delivered ++ [(id, sid)] } := by
  unfold wake at h
  split at h
  · next r sid err rest hf hd =>
    have h1 := Option.some.inj h
    simp only [Prod.mk.injEq] at h1
    obtain ⟨rfl, rfl⟩ := h1
    exact ⟨r, sid, rest, hf, hd, rfl⟩
  · exact absurd h (by simp)

theorem step_wake_eq_some {σ : Type} (L : LuaAPI σ) (s : Sys σ) (id : Nat) (s1 : Sys σ)
    (h : step L s (.wake id) = some s1) : ∃ e, wake s id = some (e, s1) := by
  simp only [step, Option.map_eq_some'] at h
  obtain ⟨⟨e, s2⟩, h1, h2⟩ := h
  simp only at h2
  subst h2
  exact ⟨e, h1⟩

theorem step_ServeInv {σ : Type} (L : LuaAPI σ) (vm0 : σ) (s s1 : Sys σ) (a : Action)
    (h : step L s a = some s1) (hi : ServeInv L vm0 s) : ServeInv L vm0 s1 := by
  obtain ⟨h1, h2⟩ := hi
  cases a with
  | callSync f =>
    obtain ⟨_, rfl⟩ := submit_eq_some s s1 f true h
    exact ⟨h1, h2⟩
  | callAsync f =>
    obtain ⟨_, rfl⟩ := submit_eq_some s s1 f false h
    exact ⟨h1, h2⟩
  | recv =>
    obtain ⟨id, f, rest, hh, hc, rfl⟩ := dispRecv_eq_some L s s1 h
    rw [hh] at h1
    simp only [Option.map_none', Option.toList_none, List.append_nil] at h1
    constructor
    · simp [outcomes_append, outcomes, h1, h2]
    · simp [vmAfter_append, vmAfter, h2]
  | send =>
    obtain ⟨sig, hh, _, rfl⟩ := dispSend_eq_some s s1 h
    rw [hh] at h1
    constructor
    · simpa using h1
    · exact h2
  | wake id =>
    obtain ⟨e, hw⟩ := step_wake_eq_some L s id s1 h
    obtain ⟨r, sid, rest, _, _, rfl⟩ := wake_eq_some s id e s1 hw
    exact ⟨h1, h2⟩

theorem run_ServeInv {σ : Type} (L : LuaAPI σ) (vm0 : σ) (acts : List Action) (s s1 : Sys σ)
    (h : run L s acts = some s1) (hi : ServeInv L vm0 s) : ServeInv L vm0 s1 := by
  induction acts generalizing s with
  | nil => simp only [run, Option.some.injEq] at h; subst h; exact hi
  | cons a as ih =>
    simp only [run, Option.bind_eq_some] at h
    obtain ⟨s2, h1, h2⟩ := h
    exact ih s2 h2 (step_ServeInv L vm0 s s2 a h1 hi)

theorem init_ServeInv {σ : Type} (L : LuaAPI σ) (vm0 : σ) : ServeInv L vm0 (Sys.init vm0) := by
  simp [ServeInv, Sys.init, outcomes, vmAfter]

theorem run_submitAll {σ : Type} (L : LuaAPI σ) (rs : List LuaFunction) (s : Sys σ)
    (h : s.functionChan.length + rs.length ≤ chanCap) :
    ∃ s1, run L s (rs.map Action.callAsync) = some s1 ∧
      s1.functionChan.map Prod.snd = s.functionChan.map Prod.snd ++ rs ∧
      s1.functionDone = s.functionDone ∧ s1.held = s.held ∧ s1.luaVM = s.luaVM ∧
      s1.consumed = s.consumed ∧ s1.sent = s.sent := by
  induction rs generalizing s with
  | nil => exact ⟨s, rfl, by simp, rfl, rfl, rfl, rfl, rfl⟩
  | cons r rs ih =>
    simp only [List.length_cons] at h
    have hlt : s.functionChan.length < chanCap := by omega
    obtain ⟨s2, hs2⟩ : ∃ s2, submit s r false = some s2 := by simp [submit, hlt]
    obtain ⟨_, e2⟩ := submit_eq_some s s2 r false hs2
    have c1 : s2.functionChan = s.functionChan ++ [(s.submitted.length, r)] := by rw [e2]
    have c2 : s2.functionDone = s.functionDone := by rw [e2]
    have c3 : s2.held = s.held := by rw [e2]
    have c4 : s2.luaVM = s.luaVM := by rw [e2]
    have c5 : s2.consumed = s.consumed := by rw [e2]
    have c6 : s2.sent = s.sent := by rw [e2]
    obtain ⟨s1, h1, h2, h3, h4, h5, h6, h7⟩ := ih s2 (by rw [c1]; simp; omega)
    refine ⟨s1, ?_, ?_, h3.trans c2, h4.trans c3, h5.trans c4, h6.trans c5, h7.trans c6⟩
    · simp only [List.map_cons, run, step, hs2, Option.some_bind]
      exact h1
    · rw [h2, c1]; simp

theorem run_drain {σ : Type} (L : LuaAPI σ) (n : Nat) (s : Sys σ)
    (hn : s.functionChan.length = n) (hh : s.held = none)
    (hcap : s.functionDone.length + n ≤ chanCap) :
    ∃ s1, run L s (serveSchedule n) = some s1 ∧
      s1.consumed = s.consumed ++ s.functionChan.map Prod.snd ∧
      s1.held = none ∧ s1.functionChan = [] := by
  induction n generalizing s with
  | zero =>
    refine ⟨s, rfl, ?_, hh, List.length_eq_zero.1 hn⟩
    simp [List.length_eq_zero.1 hn]
  | succ n ih =>
    match hc : s.functionChan, hn with
    | (id, f) :: rest, hn =>
      simp only [List.length_cons, Nat.add_right_cancel_iff] at hn
      have hlt : s.functionDone.length < chanCap := by omega
      have e1 : dispRecv L s = some { s with
          functionChan := rest
          luaVM := (Call L s.luaVM f.name f.args).vm
          held := some (id, (Call L s.luaVM f.name f.args).err)
          consumed := s.consumed ++ [f] } := by
        simp [dispRecv, hh, hc]
      obtain ⟨s1, h1, h2, h3, h4⟩ := ih
        { s with
          functionChan := rest
          luaVM := (Call L s.luaVM f.name f.args).vm
          held := none
          consumed := s.consumed ++ [f]
          functionDone := s.functionDone ++ [(id, (Call L s.luaVM f.name f.args).err)]
          sent := s.sent ++ [(Call L s.luaVM f.name f.args).err] }
        hn rfl (by simp; omega)
      refine ⟨s1, ?_, ?_, h3, h4⟩
      · simp only [serveSchedule, run, step, e1, Option.some_bind, dispSend, hlt, if_true]
        exact h1
      · simpa using h2

/-- C3: in every state the interleaving model reaches from the initial state, the
values the dispatcher has sent on `functionDone`, followed by the one it may
still hold between lines 111 and 112, are the outcomes of `Call` on the
consumed requests in consumption order, each run on the interpreter left by the
calls before it; so at the head of the loop as many values have been sent as
requests were consumed.  The loop is never stopped by an outcome: at its head
it can consume whenever a request is queued, and a held value can be sent
whenever `functionDone` has room.  A batch `rs` of at most `chanCap` requests is
served completely, failing requests included. -/
theorem serve_loop_signals {σ : Type} (L : LuaAPI σ) (vm0 : σ) (acts : List Action)
    (s : Sys σ) (h : run L (Sys.init vm0) acts = some s)
    (rs : List LuaFunction) (hrs : rs.length ≤ chanCap) :
    s.sent ++ (s.held.map Prod.snd).toList = outcomes L vm0 s.consumed ∧
    s.luaVM = vmAfter L vm0 s.consumed ∧
    (s.held = none → s.sent.length = s.consumed.length ∧
      s.sent = outcomes L vm0 s.consumed) ∧
    (s.held = none → s.functionChan ≠ [] → (step L s .recv).isSome = true) ∧
    (s.held ≠ none → s.functionDone.length < chanCap → (step L s .send).isSome = true) ∧
    (∃ s1, run L (Sys.init vm0) (rs.map Action.callAsync ++ serveSchedule rs.length) = some s1 ∧
      s1.consumed = rs ∧ s1.sent = outcomes L vm0 rs ∧ s1.sent.length = rs.length ∧
      s1.functionChan = [] ∧ s1.held = none) := by
  have hi := run_ServeInv L vm0 acts _ s h (init_ServeInv L vm0)
  refine ⟨hi.1, hi.2, ?_, ?_, ?_, ?_⟩
  · intro hh
    have h1 := hi.1
    rw [hh] at h1
    simp only [Option.map_none', Option.toList_none, List.append_nil] at h1
    exact ⟨by rw [h1, outcomes_length], h1⟩
  · intro hh hc
    match hq : s.functionChan, hc with
    | (id, f) :: rest, _ => simp [step, dispRecv, hh, hq]
  · intro hh hlt
    match hq : s.held, hh with
    | some sig, _ => simp [step, dispSend, hq, hlt]
  · obtain ⟨s1, h1, h2, h3, h4, _, _, _⟩ :=
      run_submitAll L rs (Sys.init vm0) (by simpa [Sys.init] using hrs)
    have hlen : s1.functionChan.length = rs.length := by
      have := congrArg List.length h2
      simpa [Sys.init] using this
    obtain ⟨s2, k1, k2, k3, k4⟩ := run_drain L rs.length s1 hlen h4
      (by rw [h3]; simpa [Sys.init] using hrs)
    have hrun : run L (Sys.init vm0) (rs.map Action.callAsync ++ serveSchedule rs.length)
        = some s2 := by
      rw [run_append, h1]; exact k1
    have hc : s2.consumed = rs := by
      rw [k2, h2]; simp [Sys.init, *]
    have hj := run_ServeInv L vm0 _ _ s2 hrun (init_ServeInv L vm0)
    have hs : s2.sent = outcomes L vm0 rs := by
      have := hj.1
      rw [k3, hc] at this
      simpa using this
    exact ⟨s2, hrun, hc, hs, by rw [hs, outcomes_length], k4, k3⟩

/-- Concrete instance: after a failing request has been served
and the next one consumed, the signal of the failing one has been sent and the
dispatcher holds the success of the second. -/
theorem serve_loop_signals_witness :
    run sampleLua (Sys.init sampleVM) sampleServeSchedule = some sampleServeState ∧
    sampleRequests.length ≤ chanCap ∧
    sampleServeState.sent = [some "function does not exist: missing"] ∧
    sampleServeState.held = some (1, none) ∧
    (sampleServeState.sent ++ (sampleServeState.held.map Prod.snd).toList =
        outcomes sampleLua sampleVM sampleServeState.consumed ∧
      sampleServeState.luaVM = vmAfter sampleLua sampleVM sampleServeState.consumed ∧
      (sampleServeState.held = none →
        sampleServeState.sent.length = sampleServeState.consumed.length ∧
        sampleServeState.sent = outcomes sampleLua sampleVM sampleServeState.consumed) ∧
      (sampleServeState.held = none → sampleServeState.functionChan ≠ [] →
        (step sampleLua sampleServeState .recv).isSome = true) ∧
      (sampleServeState.held ≠ none → sampleServeState.functionDone.length < chanCap →
        (step sampleLua sampleServeState .send).isSome = true) ∧
      (∃ s1, run sampleLua (Sys.init sampleVM)
          (sampleRequests.map Action.callAsync ++ serveSchedule sampleRequests.length) = some s1 ∧
        s1.consumed = sampleRequests ∧ s1.sent = outcomes sampleLua sampleVM sampleRequests ∧
        s1.sent.length = sampleRequests.length ∧ s1.functionChan = [] ∧ s1.held = none)) :=
  ⟨rfl, by decide, by decide, by decide,
    serve_loop_signals sampleLua sampleVM sampleServeSchedule sampleServeState rfl
      sampleRequests (by decide)⟩

/-! ## `CallSync`, one call at a time -/

theorem eraseP_length_of_find {α : Type} (p : α → Bool) (l : List α) (a : α)
    (h : l.find? p = some a) : (l.eraseP p).length + 1 = l.length := by
  induction l with
  | nil => simp at h
  | cons x xs ih =>
    by_cases hx : p x = true
    · simp [List.eraseP_cons, hx]
    · simp only [List.find?_cons, hx] at h
      simp [List.eraseP_cons, hx, ih h]

theorem step_Balanced {σ : Type} (L : LuaAPI σ) (s s1 : Sys σ) (a : Action)
    (h : step L s a = some s1) (hb : Balanced s) : Balanced s1 := by
  unfold Balanced at hb ⊢
  cases a with
  | callSync f =>
    obtain ⟨_, rfl⟩ := submit_eq_some s s1 f true h
    simp; omega
  | callAsync f =>
    obtain ⟨_, rfl⟩ := submit_eq_some s s1 f false h
    simp; omega
  | recv =>
    obtain ⟨id, f, rest, hh, hc, rfl⟩ := dispRecv_eq_some L s s1 h
    rw [hh, hc] at hb
    simp at hb ⊢; omega
  | send =>
    obtain ⟨sig, hh, _, rfl⟩ := dispSend_eq_some s s1 h
    rw [hh] at hb
    simp at hb ⊢; omega
  | wake id =>
    obtain ⟨e, hw⟩ := step_wake_eq_some L s id s1 h
    obtain ⟨r, sid, rest, hf, hd, rfl⟩ := wake_eq_some s id e s1 hw
    have := eraseP_length_of_find _ _ _ hf
    rw [hd] at hb
    simp at hb ⊢; omega

theorem run_Balanced {σ : Type} (L : LuaAPI σ) (acts : List Action) (s s1 : Sys σ)
    (h : run L s acts = some s1) (hb : Balanced s) : Balanced s1 := by
  induction acts generalizing s with
  | nil => simp only [run, Option.some.injEq] at h; subst h; exact hb
  | cons a as ih =>
    simp only [run, Option.bind_eq_some] at h
    obtain ⟨s2, h1, h2⟩ := h
    exact ih s2 h2 (step_Balanced L s s2 a h1 hb)

theorem init_Balanced {σ : Type} (vm0 : σ) : Balanced (Sys.init vm0) := by
  simp [Balanced, Sys.init]

/-- From an idle state a call of `CallSync` returns the outcome of `Call` on its
own request and leaves an idle state; everything it changes is listed. -/
theorem CallSync_idle {σ : Type} (L : LuaAPI σ) (s : Sys σ) (function : String)
    (args : List String) (hc : s.functionChan = []) (hd : s.functionDone = [])
    (hh : s.held = none) (hr : s.receivers = []) :
    CallSync L s function args = some ((Call L s.luaVM function args).err,
      { s with
        luaVM := (Call L s.luaVM function args).vm
        redraws := s.redraws + 1
        returned := s.returned ++ [(s.submitted.length, (Call L s.luaVM function args).err)]
        submitted := s.submitted ++ [(⟨function, args⟩, true)]
        consumed := s.consumed ++ [⟨function, args⟩]
        sent := s.sent ++ [(Call L s.luaVM function args).err]
        delivered := s.delivered ++ [(s.submitted.length, s.submitted.length)] }) := by
  simp [CallSync, submit, awaitDone, dispatch, dispRecv, dispSend, wake, hc, hd, hh, hr, chanCap]

theorem CallSync_idle_state {σ : Type} (L : LuaAPI σ) (s : Sys σ) (function : String)
    (args : List String) (hc : s.functionChan = []) (hd : s.functionDone = [])
    (hh : s.held = none) (hr : s.receivers = []) :
    ∃ s1, CallSync L s function args = some ((Call L s.luaVM function args).err, s1) ∧
      s1.functionChan = [] ∧ s1.functionDone = [] ∧ s1.held = none ∧ s1.receivers = [] ∧
      s1.luaVM = (Call L s.luaVM function args).vm :=
  ⟨_, CallSync_idle L s function args hc hd hh hr, hc, hd, hh, hr, rfl⟩

theorem callSyncAll_idle {σ : Type} (L : LuaAPI σ) (rs : List LuaFunction) (s : Sys σ)
    (hc : s.functionChan = []) (hd : s.functionDone = []) (hh : s.held = none)
    (hr : s.receivers = []) :
    ∃ res, callSyncAll L s rs = some res ∧
      res.map Prod.fst = outcomes L s.luaVM rs ∧
      (∀ p ∈ res, p.2.functionChan = [] ∧ p.2.functionDone = [] ∧ p.2.receivers = []) := by
  induction rs generalizing s with
  | nil => exact ⟨[], rfl, rfl, by simp⟩
  | cons f fs ih =>
    obtain ⟨s1, e, c1, c2, c3, c4, c5⟩ := CallSync_idle_state L s f.name f.args hc hd hh hr
    obtain ⟨res, h1, h2, h3⟩ := ih s1 c1 c2 c3 c4
    refine ⟨((Call L s.luaVM f.name f.args).err, s1) :: res, ?_, ?_, ?_⟩
    · simp only [callSyncAll, e, Option.some_bind, h1, Option.map_some']
    · simp only [List.map_cons, outcomes, h2, c5]
    · intro p hp
      rcases List.mem_cons.1 hp with rfl | hp
      · exact ⟨c1, c2, c4⟩
      · exact h3 p hp

/-- C4: from a reachable state in which both channels are empty and no goroutine
has a receive pending, calls of `CallSync` made strictly one after the other
all return; the i-th returns the outcome of `Call` on its own request, run on
the interpreter left by the calls before it, and after each return both
channels are empty again (and no receive is pending). -/
theorem CallSync_one_at_a_time {σ : Type} (L : LuaAPI σ) (vm0 : σ) (acts : List Action)
    (s : Sys σ) (hreach : run L (Sys.init vm0) acts = some s)
    (hc : s.functionChan = []) (hd : s.functionDone = []) (hr : s.receivers = [])
    (rs : List LuaFunction) :
    ∃ res, callSyncAll L s rs = some res ∧
      res.length = rs.length ∧
      res.map Prod.fst = outcomes L s.luaVM rs ∧
      (∀ p ∈ res, p.2.functionChan = [] ∧ p.2.functionDone = [] ∧ p.2.receivers = []) := by
  have hb := run_Balanced L acts _ s hreach (init_Balanced vm0)
  have hh : s.held = none := by
    unfold Balanced at hb
    rw [hc, hd, hr] at hb
    cases hq : s.held with
    | none => rfl
    | some sig => rw [hq] at hb; simp at hb
  obtain ⟨res, h1, h2, h3⟩ := callSyncAll_idle L rs s hc hd hh hr
  refine ⟨res, h1, ?_, h2, h3⟩
  have := congrArg List.length h2
  simpa [outcomes_length] using this

/-- Concrete instance: three calls, the first and the last of
them failing, from the idle state left by an earlier asynchronous request. -/
theorem CallSync_one_at_a_time_witness :
    run sampleLua (Sys.init sampleVM) sampleIdleSchedule = some sampleIdleState ∧
    sampleIdleState.functionChan = [] ∧ sampleIdleState.functionDone = [] ∧
    sampleIdleState.receivers = [] ∧
    (∃ res, callSyncAll sampleLua sampleIdleState sampleRequests = some res ∧
      res.length = sampleRequests.length ∧
      res.map Prod.fst = outcomes sampleLua sampleIdleState.luaVM sampleRequests ∧
      (∀ p ∈ res, p.2.functionChan = [] ∧ p.2.functionDone = [] ∧ p.2.receivers = [])) :=
  ⟨rfl, rfl, rfl, rfl,
    CallSync_one_at_a_time sampleLua sampleVM sampleIdleSchedule sampleIdleState rfl rfl rfl rfl
      sampleRequests⟩

/-! ## `CallAsync` -/

/-- C5: `CallAsync` completes exactly when `functionChan` has room (its send blocks
otherwise), and then, whatever the name and the arguments, it appends the one
request to the tail of the queue, leaves a waiter behind and returns `nil`.
When the waiter later takes a signal from `functionDone`, the state it leaves
does not depend on the error carried by that signal: the signal is removed, one
redraw is counted, and the values returned to callers and the message surface
stay as they were. -/
theorem CallAsync_accepts {σ : Type} (s : Sys σ) (function : String) (args : List String)
    (t : Sys σ) (id sid : Nat) (e : GoError) (rest : List (Nat × GoError))
    (hw : t.receivers.find? (fun r => r.id == id) = some ⟨id, false⟩)
    (hd : t.functionDone = (sid, e) :: rest) :
    CallAsync s function args =
      (if s.functionChan.length < chanCap then
        some (none, { s with
          functionChan := s.functionChan ++ [(s.submitted.length, ⟨function, args⟩)]
          receivers := s.receivers ++ [⟨s.submitted.length, false⟩]
          returned := s.returned ++ [(s.submitted.length, none)]
          submitted := s.submitted ++ [(⟨function, args⟩, false)] })
      else none) ∧
    wake t id = some (e, { t with
      functionDone := rest
      receivers := t.receivers.eraseP (fun r => r.id == id)
      redraws := t.redraws + 1
      delivered := t.delivered ++ [(id, sid)] }) := by
  constructor
  · unfold CallAsync submit
    split <;> simp
  · simp [wake, hw, hd]

/-- Concrete instance: an asynchronous request for an unbound name is
accepted with `nil`, and its waiter discards the failure signal. -/
theorem CallAsync_accepts_witness :
    sampleAsyncState.receivers.find? (fun r => r.id == 0) = some ⟨0, false⟩ ∧
    sampleAsyncState.functionDone = [(0, some "function does not exist: missing")] ∧
    CallAsync (Sys.init sampleVM) "missing" ["a"] =
      (if (Sys.init sampleVM).functionChan.length < chanCap then
        some (none, { Sys.init sampleVM with
          functionChan := (Sys.init sampleVM).functionChan ++
            [((Sys.init sampleVM).submitted.length, ⟨"missing", ["a"]⟩)]
          receivers := (Sys.init sampleVM).receivers ++
            [⟨(Sys.init sampleVM).submitted.length, false⟩]
          returned := (Sys.init sampleVM).returned ++
            [((Sys.init sampleVM).submitted.length, none)]
          submitted := (Sys.init sampleVM).submitted ++ [(⟨"missing", ["a"]⟩, false)] })
      else none) ∧
    wake sampleAsyncState 0 = some (some "function does not exist: missing",
      { sampleAsyncState with
        functionDone := []
        receivers := sampleAsyncState.receivers.eraseP (fun r => r.id == 0)
        redraws := sampleAsyncState.redraws + 1
        delivered := sampleAsyncState.delivered ++ [(0, 0)] }) :=
  ⟨rfl, by decide,
    CallAsync_accepts (Sys.init sampleVM) "missing" ["a"] sampleAsyncState 0 0
      (some "function does not exist: missing") [] rfl (by decide)⟩

/-! ## `LuaFunctionBinding` -/

theorem dispatch_keeps {σ : Type} (L : LuaAPI σ) (s s1 : Sys σ) (h : dispatch L s = some s1) :
    s1.submitted = s.submitted ∧ s1.messages = s.messages := by
  unfold dispatch at h
  split at h
  · obtain ⟨id, f, rest, _, _, rfl⟩ := dispRecv_eq_some L s s1 h
    exact ⟨rfl, rfl⟩
  · obtain ⟨sig, _, _, rfl⟩ := dispSend_eq_some s s1 h
    exact ⟨rfl, rfl⟩

theorem awaitDone_keeps {σ : Type} (L : LuaAPI σ) (fuel : Nat) (s s1 : Sys σ)
    (h : awaitDone L fuel s = some s1) :
    s1.submitted = s.submitted ∧ s1.messages = s.messages := by
  induction fuel generalizing s with
  | zero =>
    unfold awaitDone at h
    split at h
    · simp only [Option.some.injEq] at h; subst h; exact ⟨rfl, rfl⟩
    · simp at h
  | succ n ih =>
    unfold awaitDone at h
    split at h
    · simp only [Option.some.injEq] at h; subst h; exact ⟨rfl, rfl⟩
    · simp only [Option.bind_eq_some] at h
      obtain ⟨s2, h1, h2⟩ := h
      obtain ⟨a1, a2⟩ := dispatch_keeps L s s2 h1
      obtain ⟨b1, b2⟩ := ih s2 h2
      exact ⟨b1.trans a1, b2.trans a2⟩

/-- A completed `CallSync` has made exactly one submission, a synchronous one of
its own request, and has not touched the message surface. -/
theorem CallSync_submits_once {σ : Type} (L : LuaAPI σ) (s s1 : Sys σ) (function : String)
    (args : List String) (err : GoError) (h : CallSync L s function args = some (err, s1)) :
    s1.submitted = s.submitted ++ [(⟨function, args⟩, true)] ∧ s1.messages = s.messages := by
  unfold CallSync at h
  simp only [Option.bind_eq_some] at h
  obtain ⟨s2, h1, s3, h2, h3⟩ := h
  obtain ⟨_, rfl⟩ := submit_eq_some s s2 _ true h1
  obtain ⟨a1, a2⟩ := awaitDone_keeps L 2 _ s3 h2
  obtain ⟨r, sid, rest, _, _, rfl⟩ := wake_eq_some s3 _ err s1 h3
  exact ⟨a1, a2⟩

/-- C9: whenever the synchronous submission behind it returns, with whatever
outcome, the callable made by `LuaFunctionBinding` returns `false`; it has made
exactly one submission, a synchronous one of the name with no arguments; and
it has called `TermMessage`, with the error, exactly when the outcome is a
failure.  The view plays no part. -/
theorem LuaFunctionBinding_reports {σ View : Type} (L : LuaAPI σ) (function : String)
    (v : View) (s s1 : Sys σ) (err : GoError)
    (h : CallSync L s function [] = some (err, s1)) :
    s1.submitted = s.submitted ++ [(⟨function, []⟩, true)] ∧
    (err = none → LuaFunctionBinding L function v s = some (false, s1) ∧
      s1.messages = s.messages) ∧
    (∀ e, err = some e →
      LuaFunctionBinding L function v s =
        some (false, { s1 with messages := s.messages ++ [.error e] })) := by
  obtain ⟨h1, h2⟩ := CallSync_submits_once L s s1 function [] err h
  refine ⟨h1, ?_, ?_⟩
  · intro he
    subst he
    simp [LuaFunctionBinding, h, h2]
  · intro e he
    subst he
    simp [LuaFunctionBinding, h, TermMessage, h2]

/-- Concrete instance: a binding to an unbound name reports
the failure once and returns `false`. -/
theorem LuaFunctionBinding_reports_witness :
    CallSync sampleLua (Sys.init sampleVM) "missing" [] =
      some (some "function does not exist: missing", sampleBindingState) ∧
    (sampleBindingState.submitted =
        (Sys.init sampleVM).submitted ++ [(⟨"missing", []⟩, true)] ∧
      ((some "function does not exist: missing" : GoError) = none →
        LuaFunctionBinding sampleLua "missing" () (Sys.init sampleVM) =
          some (false, sampleBindingState) ∧
        sampleBindingState.messages = (Sys.init sampleVM).messages) ∧
      (∀ e, (some "function does not exist: missing" : GoError) = some e →
        LuaFunctionBinding sampleLua "missing" () (Sys.init sampleVM) =
          some (false, { sampleBindingState with
            messages := (Sys.init sampleVM).messages ++ [.error e] }))) :=
  ⟨rfl, LuaFunctionBinding_reports sampleLua "missing" () (Sys.init sampleVM)
    sampleBindingState (some "function does not exist: missing") rfl⟩

/-! ## The shared, unkeyed channels -/

theorem step_SerialInv {σ : Type} (L : LuaAPI σ) (s s1 : Sys σ) (a : Action)
    (h : step L s a = some s1) (hlen : s1.receivers.length ≤ 1) (hi : SerialInv s) :
    SerialInv s1 := by
  obtain ⟨hb, ht, hdel⟩ := hi
  refine ⟨step_Balanced L s s1 a h hb, ?_, ?_⟩
  · cases a with
    | callSync f =>
      obtain ⟨_, rfl⟩ := submit_eq_some s s1 f true h
      simp only [List.length_append, List.length_singleton] at hlen
      have hr : s.receivers = [] := List.length_eq_zero.1 (by omega)
      unfold Balanced at hb
      rw [hr] at hb
      simp only [List.length_nil] at hb
      have hc : s.functionChan = [] := List.length_eq_zero.1 (by omega)
      have hd : s.functionDone = [] := List.length_eq_zero.1 (by omega)
      have hh : s.held = none := by
        cases hq : s.held with
        | none => rfl
        | some sig => rw [hq] at hb; simp at hb; omega
      intro r hrm
      simp only [hr, List.nil_append, List.mem_singleton] at hrm
      subst hrm
      simp [hc, hd, hh]
    | callAsync f =>
      obtain ⟨_, rfl⟩ := submit_eq_some s s1 f false h
      simp only [List.length_append, List.length_singleton] at hlen
      have hr : s.receivers = [] := List.length_eq_zero.1 (by omega)
      unfold Balanced at hb
      rw [hr] at hb
      simp only [List.length_nil] at hb
      have hc : s.functionChan = [] := List.length_eq_zero.1 (by omega)
      have hd : s.functionDone = [] := List.length_eq_zero.1 (by omega)
      have hh : s.held = none := by
        cases hq : s.held with
        | none => rfl
        | some sig => rw [hq] at hb; simp at hb; omega
      intro r hrm
      simp only [hr, List.nil_append, List.mem_singleton] at hrm
      subst hrm
      simp [hc, hd, hh]
    | recv =>
      obtain ⟨id, f, rest, hh, hc, rfl⟩ := dispRecv_eq_some L s s1 h
      intro r hrm
      obtain ⟨t1, t2, t3⟩ := ht r hrm
      refine ⟨?_, ?_, t3⟩
      · intro q hq
        exact t1 q (by rw [hc]; exact List.mem_cons_of_mem _ hq)
      · intro q hq
        simp only [Option.some.injEq] at hq
        subst hq
        exact t1 (id, f) (by rw [hc]; exact List.mem_cons_self _ _)
    | send =>
      obtain ⟨sig, hh, _, rfl⟩ := dispSend_eq_some s s1 h
      intro r hrm
      obtain ⟨t1, t2, t3⟩ := ht r hrm
      refine ⟨t1, by simp, ?_⟩
      intro q hq
      rcases List.mem_append.1 hq with hq | hq
      · exact t3 q hq
      · simp only [List.mem_singleton] at hq
        subst hq
        exact t2 q hh
    | wake id =>
      obtain ⟨e, hw⟩ := step_wake_eq_some L s id s1 h
      obtain ⟨r0, sid, rest, hf, hd, rfl⟩ := wake_eq_some s id e s1 hw
      intro r hrm
      obtain ⟨t1, t2, t3⟩ := ht r (List.mem_of_mem_eraseP hrm)
      refine ⟨t1, t2, ?_⟩
      intro q hq
      exact t3 q (by rw [hd]; exact List.mem_cons_of_mem _ hq)
  · cases a with
    | callSync f =>
      obtain ⟨_, rfl⟩ := submit_eq_some s s1 f true h
      exact hdel
    | callAsync f =>
      obtain ⟨_, rfl⟩ := submit_eq_some s s1 f false h
      exact hdel
    | recv =>
      obtain ⟨id, f, rest, hh, hc, rfl⟩ := dispRecv_eq_some L s s1 h
      exact hdel
    | send =>
      obtain ⟨sig, hh, _, rfl⟩ := dispSend_eq_some s s1 h
      exact hdel
    | wake id =>
      obtain ⟨e, hw⟩ := step_wake_eq_some L s id s1 h
      obtain ⟨r0, sid, rest, hf, hd, rfl⟩ := wake_eq_some s id e s1 hw
      intro p hp
      rcases List.mem_append.1 hp with hp | hp
      · exact hdel p hp
      · simp only [List.mem_singleton] at hp
        subst hp
        have hm : r0 ∈ s.receivers := List.mem_of_find?_eq_some hf
        have hid : r0.id = id := by
          have := List.find?_some hf
          simpa using this
        have := (ht r0 hm).2.2 (sid, e) (by rw [hd]; exact List.mem_cons_self _ _)
        simp only at this
        simp only
        omega

theorem serialRun_SerialInv {σ : Type} (L : LuaAPI σ) (acts : List Action) (s s1 : Sys σ)
    (h : serialRun L s acts = some s1) (hi : SerialInv s) : SerialInv s1 := by
  induction acts generalizing s with
  | nil => simp only [serialRun, Option.some.injEq] at h; subst h; exact hi
  | cons a as ih =>
    simp only [serialRun, Option.bind_eq_some] at h
    obtain ⟨s2, h1, h2⟩ := h
    split at h2
    · next hlen => exact ih s2 h2 (step_SerialInv L s s2 a h1 hlen hi)
    · simp at h2

theorem init_SerialInv {σ : Type} (vm0 : σ) : SerialInv (Sys.init vm0) := by
  refine ⟨init_Balanced vm0, ?_, ?_⟩ <;> simp [Sys.init]

theorem race_run {σ : Type} (L : LuaAPI σ) (vm0 : σ) (f g : LuaFunction) :
    ∃ mid t, run L (Sys.init vm0) [.callAsync f, .callSync g] = some mid ∧
      mid.receivers = [⟨0, false⟩, ⟨1, true⟩] ∧
      run L (Sys.init vm0) (raceSchedule f g) = some t ∧
      t.sent = outcomes L vm0 [f, g] ∧
      t.returned = [(0, none), (1, (Call L vm0 f.name f.args).err)] ∧
      t.delivered = [(1, 0), (0, 1)] := by
  simp [raceSchedule, run, step, submit, dispRecv, dispSend, wake, Sys.init, chanCap,
    outcomes, List.eraseP_cons]

theorem serialRun_run {σ : Type} (L : LuaAPI σ) (acts : List Action) (s s1 : Sys σ)
    (h : serialRun L s acts = some s1) : run L s acts = some s1 := by
  induction acts generalizing s with
  | nil => exact h
  | cons a as ih =>
    simp only [serialRun, Option.bind_eq_some] at h
    obtain ⟨s2, h1, h2⟩ := h
    split at h2
    · simp only [run, h1, Option.some_bind]
      exact ih s2 h2
    · simp at h2

/-- C10: with a `CallAsync` request `f` and a `CallSync` request `g` outstanding at
the same time, the schedule `raceSchedule f g` is an execution in which the
`CallSync` caller (request 1) takes the signal of request 0 and returns the
outcome of `f`, which differs from the outcome of its own request, while the
waiter of `CallAsync` (request 0) takes the signal of request 1.  In every
execution with at most one request outstanding at a time, every completed
receive took the signal of the receiver's own request. -/
theorem shared_channels_delivery {σ : Type} (L : LuaAPI σ) (vm0 : σ) (f g : LuaFunction)
    (hdiff : (Call L vm0 f.name f.args).err ≠
      (Call L (Call L vm0 f.name f.args).vm g.name g.args).err)
    (acts : List Action) (s : Sys σ) (h : serialRun L (Sys.init vm0) acts = some s) :
    (∃ mid t, run L (Sys.init vm0) [.callAsync f, .callSync g] = some mid ∧
      mid.receivers = [⟨0, false⟩, ⟨1, true⟩] ∧
      run L (Sys.init vm0) (raceSchedule f g) = some t ∧
      t.sent = [(Call L vm0 f.name f.args).err,
        (Call L (Call L vm0 f.name f.args).vm g.name g.args).err] ∧
      t.delivered = [(1, 0), (0, 1)] ∧
      (∃ e, t.returned = [(0, none), (1, e)] ∧ e = (Call L vm0 f.name f.args).err ∧
        e ≠ (Call L (Call L vm0 f.name f.args).vm g.name g.args).err)) ∧
    run L (Sys.init vm0) acts = some s ∧
    (∀ p ∈ s.delivered, p.1 = p.2) := by
  refine ⟨?_, serialRun_run L acts _ s h,
    (serialRun_SerialInv L acts _ s h (init_SerialInv vm0)).2.2⟩
  obtain ⟨mid, t, h1, h2, h3, h4, h5, h6⟩ := race_run L vm0 f g
  exact ⟨mid, t, h1, h2, h3, by simpa [outcomes] using h4, h6, _, h5, rfl, hdiff⟩

/-- Concrete instance: with `f` a function that succeeds and
`g` an unbound name the outcomes differ, and the serial schedule
`sampleIdleSchedule` delivers request 0 its own signal. -/
theorem shared_channels_delivery_witness :
    (Call sampleLua sampleVM "ok" []).err ≠
      (Call sampleLua (Call sampleLua sampleVM "ok" []).vm "missing" []).err ∧
    serialRun sampleLua (Sys.init sampleVM) sampleIdleSchedule = some sampleIdleState ∧
    sampleIdleState.delivered = [(0, 0)] ∧
    (∃ t, run sampleLua (Sys.init sampleVM) (raceSchedule ⟨"ok", []⟩ ⟨"missing", []⟩) = some t ∧
      t.delivered = [(1, 0), (0, 1)]) ∧
    (∀ p ∈ sampleIdleState.delivered, p.1 = p.2) :=
  ⟨by decide, rfl, by decide,
    (shared_channels_delivery sampleLua sampleVM ⟨"ok", []⟩ ⟨"missing", []⟩ (by decide)
      sampleIdleSchedule sampleIdleState rfl).1.elim
      (fun _ hm => hm.elim (fun t ht => ⟨t, ht.2.2.1, ht.2.2.2.2.1⟩)),
    (shared_channels_delivery sampleLua sampleVM ⟨"ok", []⟩ ⟨"missing", []⟩ (by decide)
      sampleIdleSchedule sampleIdleState rfl).2.2⟩

/-! ## `LoadPlugins` -/

theorem loadEntry_spec {σ : Type} (L : LuaAPI σ) (H : Host) (okFile : String → Bool)
    (hok : ∀ vm p, (L.DoFile vm p).1 = none ↔ okFile p = true)
    (P : String) (w : Loader σ) (f : FileInfo) :
    (loadEntry L H P w f).loadedPlugins =
        w.loadedPlugins ++ (if (f.Name == P ++ ".lua" && okFile (entryPath H P)) = true
          then [P] else []) ∧
    textsOf (loadEntry L H P w f).messages = textsOf w.messages := by
  unfold loadEntry
  by_cases hn : f.Name = P ++ ".lua"
  · rw [if_pos hn]
    have hk := hok w.luaVM (H.configDir ++ "/plugins/" ++ P ++ "/" ++ f.Name)
    have hp : H.configDir ++ "/plugins/" ++ P ++ "/" ++ f.Name = entryPath H P := by
      rw [hn]; rfl
    rw [hp] at hk ⊢
    rcases hres : L.DoFile w.luaVM (entryPath H P) with ⟨_ | err, vm⟩
    · rw [hres] at hk
      have hk2 : okFile (entryPath H P) = true := hk.1 rfl
      simp [hn, hk2]
    · rw [hres] at hk
      have hk2 : okFile (entryPath H P) = false := by
        cases hq : okFile (entryPath H P) with
        | false => rfl
        | true => exact absurd (hk.2 hq) (by simp)
      simp [hn, hk2, textsOf]
  · rw [if_neg hn]
    simp [hn]

theorem foldl_loadEntry_spec {σ : Type} (L : LuaAPI σ) (H : Host) (okFile : String → Bool)
    (hok : ∀ vm p, (L.DoFile vm p).1 = none ↔ okFile p = true)
    (P : String) (fs : List FileInfo) (w : Loader σ) :
    (fs.foldl (loadEntry L H P) w).loadedPlugins =
        w.loadedPlugins ++ (fs.filter
          (fun f => f.Name == P ++ ".lua" && okFile (entryPath H P))).map (fun _ => P) ∧
    textsOf (fs.foldl (loadEntry L H P) w).messages = textsOf w.messages := by
  induction fs generalizing w with
  | nil => simp
  | cons f fs ih =>
    obtain ⟨a1, a2⟩ := loadEntry_spec L H okFile hok P w f
    obtain ⟨b1, b2⟩ := ih (loadEntry L H P w f)
    simp only [List.foldl_cons]
    refine ⟨?_, b2.trans a2⟩
    rw [b1, a1]
    by_cases hc : (f.Name == P ++ ".lua" && okFile (entryPath H P)) = true
    · simp [List.filter_cons, hc]
    · simp [List.filter_cons, hc]

theorem loadDir_spec {σ : Type} (L : LuaAPI σ) (H : Host) (okFile : String → Bool)
    (hok : ∀ vm p, (L.DoFile vm p).1 = none ↔ okFile p = true)
    (w : Loader σ) (P : FileInfo) :
    (loadDir L H w P).loadedPlugins = w.loadedPlugins ++ recordsOf H okFile P ∧
    textsOf (loadDir L H w P).messages = textsOf w.messages := by
  unfold loadDir recordsOf
  by_cases hd : P.IsDir = true
  · rw [if_pos hd, if_pos hd]
    exact foldl_loadEntry_spec L H okFile hok P.Name _ w
  · rw [if_neg hd, if_neg hd]
    simp

theorem foldl_loadDir_spec {σ : Type} (L : LuaAPI σ) (H : Host) (okFile : String → Bool)
    (hok : ∀ vm p, (L.DoFile vm p).1 = none ↔ okFile p = true)
    (ps : List FileInfo) (w : Loader σ) :
    (ps.foldl (loadDir L H) w).loadedPlugins =
        w.loadedPlugins ++ ps.flatMap (recordsOf H okFile) ∧
    textsOf (ps.foldl (loadDir L H) w).messages = textsOf w.messages := by
  induction ps generalizing w with
  | nil => simp
  | cons P ps ih =>
    obtain ⟨a1, a2⟩ := loadDir_spec L H okFile hok w P
    obtain ⟨b1, b2⟩ := ih (loadDir L H w P)
    simp only [List.foldl_cons]
    refine ⟨?_, b2.trans a2⟩
    rw [b1, a1]
    simp [List.flatMap_cons]

theorem loadEntry_texts {σ : Type} (L : LuaAPI σ) (H : Host) (P : String) (w : Loader σ)
    (f : FileInfo) : textsOf (loadEntry L H P w f).messages = textsOf w.messages := by
  unfold loadEntry
  split
  · split <;> simp [textsOf]
  · rfl

theorem foldl_loadEntry_texts {σ : Type} (L : LuaAPI σ) (H : Host) (P : String)
    (fs : List FileInfo) (w : Loader σ) :
    textsOf (fs.foldl (loadEntry L H P) w).messages = textsOf w.messages := by
  induction fs generalizing w with
  | nil => rfl
  | cons f fs ih =>
    simp only [List.foldl_cons]
    exact (ih _).trans (loadEntry_texts L H P w f)

theorem loadExternal_texts {σ : Type} (L : LuaAPI σ) (H : Host) (w : Loader σ) :
    textsOf (loadExternal L H w).messages = textsOf w.messages := by
  unfold loadExternal
  generalize H.ReadDir (H.configDir ++ "/plugins") = ps
  induction ps generalizing w with
  | nil => rfl
  | cons P ps ih =>
    simp only [List.foldl_cons]
    refine (ih _).trans ?_
    unfold loadDir
    split
    · exact foldl_loadEntry_texts L H P.Name _ w
    · rfl

theorem loadExternal_loaded {σ : Type} (L : LuaAPI σ) (H : Host) (okFile : String → Bool)
    (hok : ∀ vm p, (L.DoFile vm p).1 = none ↔ okFile p = true) (w : Loader σ) :
    (loadExternal L H w).loadedPlugins =
      w.loadedPlugins ++ (H.ReadDir (H.configDir ++ "/plugins")).flatMap (recordsOf H okFile) :=
  (foldl_loadDir_spec L H okFile hok _ w).1

theorem filter_name_nodup (fs : List FileInfo) (n P : String) (b : Bool)
    (hnd : (fs.map FileInfo.Name).Nodup) :
    (fs.filter (fun f => f.Name == n && b)).map (fun _ => P) =
      if (fs.any (fun f => f.Name == n) && b) = true then [P] else [] := by
  induction fs with
  | nil => simp
  | cons f fs ih =>
    simp only [List.map_cons, List.nodup_cons] at hnd
    obtain ⟨hf, hnd⟩ := hnd
    have ih := ih hnd
    cases b with
    | false => simp
    | true =>
      simp only [Bool.and_true] at ih ⊢
      by_cases hn : f.Name = n
      · have hno : fs.any (fun g => g.Name == n) = false := by
          rw [List.any_eq_false]
          intro g hg hgn
          apply hf
          rw [hn]
          exact List.mem_map.2 ⟨g, hg, by simpa using hgn⟩
        rw [hno] at ih
        simp only [Bool.false_eq_true, if_false] at ih
        simp [List.filter_cons, hn, ih]
      · have hb : (f.Name == n) = false := by simpa using hn
        simp [List.filter_cons, hb, ih]

theorem recordsOf_nodup (H : Host) (okFile : String → Bool) (P : FileInfo)
    (hnd : ∀ d, ((H.ReadDir d).map FileInfo.Name).Nodup) :
    recordsOf H okFile P = if loadable H okFile P = true then [P.Name] else [] := by
  unfold recordsOf loadable
  by_cases hd : P.IsDir = true
  · rw [if_pos hd, filter_name_nodup _ _ _ _ (hnd _)]
    simp [hd, Bool.and_assoc]
  · simp [hd]

theorem flatMap_recordsOf (H : Host) (okFile : String → Bool) (ps : List FileInfo)
    (hnd : ∀ d, ((H.ReadDir d).map FileInfo.Name).Nodup) :
    ps.flatMap (recordsOf H okFile) = (ps.filter (loadable H okFile)).map FileInfo.Name := by
  induction ps with
  | nil => rfl
  | cons P ps ih =>
    rw [List.flatMap_cons, ih, recordsOf_nodup H okFile P hnd]
    by_cases hl : loadable H okFile P = true
    · simp [List.filter_cons, hl]
    · simp [List.filter_cons, hl]

theorem loadBuiltin_spec {σ : Type} (L : LuaAPI σ) (H : Host) (okSource : String → Bool)
    (hok : ∀ vm src, (L.DoString vm src).1 = none ↔ okSource src = true)
    (w : Loader σ) (n : String) :
    (loadBuiltin L H w n).loadedPlugins =
      w.loadedPlugins ++ (if builtinOk H okSource n = true then [n] else []) := by
  unfold loadBuiltin builtinOk bundlePath
  rcases ha : H.Asset ("runtime/plugins/" ++ n ++ "/" ++ n ++ ".lua") with _ | data
  · simp
  · have hk := hok w.luaVM data
    rcases hres : L.DoString w.luaVM data with ⟨_ | err, vm⟩
    · rw [hres] at hk
      have hk2 : okSource data = true := hk.1 rfl
      simp [hk2, hres]
    · rw [hres] at hk
      have hk2 : okSource data = false := by
        cases hq : okSource data with
        | false => rfl
        | true => exact absurd (hk.2 hq) (by simp)
      simp [hk2, hres]

theorem loadBuiltin_texts {σ : Type} (L : LuaAPI σ) (H : Host) (w : Loader σ) (n : String) :
    textsOf (loadBuiltin L H w n).messages =
      textsOf w.messages ++ (if (H.Asset (bundlePath n)).isNone = true
        then ["Error loading pre-installed plugin: " ++ n] else []) := by
  unfold loadBuiltin bundlePath
  rcases ha : H.Asset ("runtime/plugins/" ++ n ++ "/" ++ n ++ ".lua") with _ | data
  · simp [textsOf]
  · rcases hres : L.DoString w.luaVM data with ⟨_ | err, vm⟩ <;> simp [textsOf, hres]

theorem foldl_loadBuiltin_spec {σ : Type} (L : LuaAPI σ) (H : Host)
    (okSource : String → Bool)
    (hok : ∀ vm src, (L.DoString vm src).1 = none ↔ okSource src = true)
    (ids : List String) (w : Loader σ) :
    (ids.foldl (loadBuiltin L H) w).loadedPlugins =
      w.loadedPlugins ++ ids.filter (builtinOk H okSource) := by
  induction ids generalizing w with
  | nil => simp
  | cons n ids ih =>
    simp only [List.foldl_cons]
    rw [ih, loadBuiltin_spec L H okSource hok w n]
    by_cases hb : builtinOk H okSource n = true
    · simp [List.filter_cons, hb]
    · simp [List.filter_cons, hb]

theorem foldl_loadBuiltin_texts {σ : Type} (L : LuaAPI σ) (H : Host) (ids : List String)
    (w : Loader σ) :
    textsOf (ids.foldl (loadBuiltin L H) w).messages =
      textsOf w.messages ++ (ids.filter (fun n => (H.Asset (bundlePath n)).isNone)).map
        (fun n => "Error loading pre-installed plugin: " ++ n) := by
  induction ids generalizing w with
  | nil => simp
  | cons n ids ih =>
    simp only [List.foldl_cons]
    rw [ih, loadBuiltin_texts L H w n]
    by_cases hb : (H.Asset (bundlePath n)).isNone = true
    · simp [List.filter_cons, hb]
    · simp [List.filter_cons, hb]

theorem foldl_loadBuiltin_appends {σ : Type} (L : LuaAPI σ) (H : Host) (ids : List String)
    (w : Loader σ) :
    ∃ blt, blt.Sublist ids ∧
      (ids.foldl (loadBuiltin L H) w).loadedPlugins = w.loadedPlugins ++ blt := by
  induction ids generalizing w with
  | nil => exact ⟨[], List.Sublist.refl _, by simp⟩
  | cons n ids ih =>
    obtain ⟨blt, h1, h2⟩ := ih (loadBuiltin L H w n)
    simp only [List.foldl_cons]
    have hcase : (loadBuiltin L H w n).loadedPlugins = w.loadedPlugins ∨
        (loadBuiltin L H w n).loadedPlugins = w.loadedPlugins ++ [n] := by
      unfold loadBuiltin
      split
      · left; rfl
      · split
        · left; rfl
        · right; rfl
    rcases hcase with hc | hc
    · exact ⟨blt, h1.cons n, by rw [h2, hc]⟩
    · exact ⟨n :: blt, h1.cons₂ n, by rw [h2, hc]; simp⟩

theorem sampleOkFile_spec (vm : List (String × LValue)) (p : String) :
    (sampleLua.DoFile vm p).1 = none ↔ sampleOkFile p = true := by
  by_cases h : p = "/cfg/plugins/bad/bad.lua" <;> simp [sampleLua, sampleOkFile, h]

theorem sampleOkSource_spec (vm : List (String × LValue)) (src : String) :
    (sampleLua.DoString vm src).1 = none ↔ sampleOkSource src = true := by
  by_cases h : src = "broken" <;> simp [sampleLua, sampleOkSource, h]

theorem sampleHost_nodup (d : String) : ((sampleHost.ReadDir d).map FileInfo.Name).Nodup := by
  unfold sampleHost
  simp only
  split_ifs <;> decide

/-- C6: with script loading given by a success function `okFile` and listings that
name every entry once, the external pass appends to `loadedPlugins` exactly the
names of the loadable entries of the plugins directory, in listing order.  So a
subdirectory that holds an entry named after it with `.lua` whose load succeeds
is recorded exactly once, and a name is not recorded when every entry of that
name is no directory, or holds no entry of that exact name, or fails to load.
The whole of `LoadPlugins` keeps these records and only appends built-in
identifiers after them. -/
theorem LoadPlugins_external_pass {σ : Type} (L : LuaAPI σ) (H : Host)
    (okFile : String → Bool)
    (hok : ∀ vm p, (L.DoFile vm p).1 = none ↔ okFile p = true)
    (hnd : ∀ d, ((H.ReadDir d).map FileInfo.Name).Nodup) (w : Loader σ) :
    (loadExternal L H w).loadedPlugins = w.loadedPlugins ++ externalNames H okFile ∧
    (∀ e ∈ H.ReadDir (H.configDir ++ "/plugins"), e.IsDir = true →
      (∃ f ∈ H.ReadDir (H.configDir ++ "/plugins/" ++ e.Name), f.Name = e.Name ++ ".lua") →
      okFile (entryPath H e.Name) = true →
      (externalNames H okFile).count e.Name = 1) ∧
    (∀ P, (∀ e ∈ H.ReadDir (H.configDir ++ "/plugins"), e.Name = P →
        e.IsDir = false ∨
        (∀ f ∈ H.ReadDir (H.configDir ++ "/plugins/" ++ P), f.Name ≠ P ++ ".lua") ∨
        okFile (entryPath H P) = false) →
      (externalNames H okFile).count P = 0) ∧
    (∃ blt, blt.Sublist H.preInstalledPlugins ∧
      (LoadPlugins L H w).loadedPlugins =
        w.loadedPlugins ++ externalNames H okFile ++ blt) := by
  have hext : (loadExternal L H w).loadedPlugins = w.loadedPlugins ++ externalNames H okFile := by
    rw [loadExternal_loaded L H okFile hok w, flatMap_recordsOf H okFile _ hnd]
    rfl
  have hnames : (externalNames H okFile).Nodup := by
    unfold externalNames
    exact List.Nodup.sublist ((List.filter_sublist _).map _) (hnd _)
  refine ⟨hext, ?_, ?_, ?_⟩
  · intro e he hd hf hk
    apply List.count_eq_one_of_mem hnames
    unfold externalNames
    refine List.mem_map.2 ⟨e, List.mem_filter.2 ⟨he, ?_⟩, rfl⟩
    obtain ⟨f, hf1, hf2⟩ := hf
    have hany : (H.ReadDir (H.configDir ++ "/plugins/" ++ e.Name)).any
        (fun f => f.Name == e.Name ++ ".lua") = true :=
      List.any_eq_true.2 ⟨f, hf1, by simpa using hf2⟩
    simp [loadable, hd, hany, hk]
  · intro P hP
    apply List.count_eq_zero_of_not_mem
    unfold externalNames
    intro hmem
    obtain ⟨e, he, hname⟩ := List.mem_map.1 hmem
    obtain ⟨he1, he2⟩ := List.mem_filter.1 he
    simp only [loadable, Bool.and_eq_true, List.any_eq_true] at he2
    obtain ⟨⟨hd, f, hf1, hf2⟩, hk⟩ := he2
    rw [hname] at hf1 hf2 hk
    rcases hP e he1 hname with h1 | h1 | h1
    · rw [h1] at hd; exact absurd hd (by simp)
    · exact h1 f hf1 (by simpa using hf2)
    · rw [h1] at hk; exact absurd hk (by simp)
  · obtain ⟨blt, h1, h2⟩ := foldl_loadBuiltin_appends L H H.preInstalledPlugins
      (loadExternal L H w)
    exact ⟨blt, h1, by unfold LoadPlugins; rw [h2, hext]⟩

/-- Concrete instance: of the sample configuration directory
only `foo` is recorded; `bar` (holding only `baz.lua`), `bad` (load fails) and
the plain file `notes.txt` are not. -/
theorem LoadPlugins_external_pass_witness :
    externalNames sampleHost sampleOkFile = ["foo"] ∧
    (loadExternal sampleLua sampleHost sampleLoader).loadedPlugins =
      sampleLoader.loadedPlugins ++ externalNames sampleHost sampleOkFile ∧
    (externalNames sampleHost sampleOkFile).count "bar" = 0 :=
  ⟨by decide,
    (LoadPlugins_external_pass sampleLua sampleHost sampleOkFile sampleOkFile_spec
      sampleHost_nodup sampleLoader).1,
    (LoadPlugins_external_pass sampleLua sampleHost sampleOkFile sampleOkFile_spec
      sampleHost_nodup sampleLoader).2.2.1 "bar" (by decide)⟩

/-- C7: with source loading given by a success function `okSource`, the names the
built-in pass appends are the identifiers of `preInstalledPlugins`, in list
order, whose bundle resolves and whose source loads; they come after
everything the external pass of the same run recorded.  The string messages of
the run are one report per identifier with a missing bundle, in list order,
and such an identifier stops nothing: the identifiers before and after it are
recorded as if it were not in the list. -/
theorem LoadPlugins_builtin_pass {σ : Type} (L : LuaAPI σ) (H : Host)
    (okSource : String → Bool)
    (hok : ∀ vm src, (L.DoString vm src).1 = none ↔ okSource src = true) (w : Loader σ) :
    (LoadPlugins L H w).loadedPlugins =
      (loadExternal L H w).loadedPlugins ++
        H.preInstalledPlugins.filter (builtinOk H okSource) ∧
    textsOf (LoadPlugins L H w).messages =
      textsOf w.messages ++
        (H.preInstalledPlugins.filter (fun n => (H.Asset (bundlePath n)).isNone)).map
          (fun n => "Error loading pre-installed plugin: " ++ n) ∧
    (∀ pre post name, H.preInstalledPlugins = pre ++ name :: post →
      H.Asset (bundlePath name) = none →
      H.preInstalledPlugins.filter (builtinOk H okSource) =
        pre.filter (builtinOk H okSource) ++ post.filter (builtinOk H okSource)) := by
  refine ⟨?_, ?_, ?_⟩
  · exact foldl_loadBuiltin_spec L H okSource hok _ _
  · unfold LoadPlugins
    rw [foldl_loadBuiltin_texts, loadExternal_texts]
  · intro pre post name hsplit hmiss
    have hb : builtinOk H okSource name = false := by simp [builtinOk, hmiss]
    rw [hsplit, List.filter_append, List.filter_cons, hb]
    simp

/-- Concrete instance: the bundle of `go` is missing, so it is
reported once and `linter`, after it, is still recorded, behind the external
plugin `foo`. -/
theorem LoadPlugins_builtin_pass_witness :
    (LoadPlugins sampleLua sampleHost sampleLoader).loadedPlugins =
      ["earlier", "foo", "linter"] ∧
    textsOf (LoadPlugins sampleLua sampleHost sampleLoader).messages =
      ["Error loading pre-installed plugin: go"] ∧
    (LoadPlugins sampleLua sampleHost sampleLoader).loadedPlugins =
      (loadExternal sampleLua sampleHost sampleLoader).loadedPlugins ++
        sampleHost.preInstalledPlugins.filter (builtinOk sampleHost sampleOkSource) :=
  ⟨by decide, by decide,
    (LoadPlugins_builtin_pass sampleLua sampleHost sampleOkSource sampleOkSource_spec
      sampleLoader).1⟩

/-- C8: `loadedPlugins` is only appended to and never deduplicated.  With load
success given by `okFile` and `okSource`, a run of `LoadPlugins` on the registry
`R` yields `R ++ passRecords`, a second run on the same surroundings yields
`R ++ passRecords ++ passRecords`, and so every name occurs twice as often among
the records of two runs as among those of one. -/
theorem LoadPlugins_twice {σ : Type} (L : LuaAPI σ) (H : Host)
    (okFile okSource : String → Bool)
    (hokF : ∀ vm p, (L.DoFile vm p).1 = none ↔ okFile p = true)
    (hokS : ∀ vm src, (L.DoString vm src).1 = none ↔ okSource src = true)
    (w : Loader σ) :
    (LoadPlugins L H w).loadedPlugins =
      w.loadedPlugins ++ passRecords H okFile okSource ∧
    (LoadPlugins L H (LoadPlugins L H w)).loadedPlugins =
      w.loadedPlugins ++ passRecords H okFile okSource ++ passRecords H okFile okSource ∧
    (∀ n, (LoadPlugins L H (LoadPlugins L H w)).loadedPlugins.count n =
      w.loadedPlugins.count n + 2 * (passRecords H okFile okSource).count n) := by
  have once : ∀ v : Loader σ, (LoadPlugins L H v).loadedPlugins =
      v.loadedPlugins ++ passRecords H okFile okSource := by
    intro v
    unfold LoadPlugins passRecords
    rw [foldl_loadBuiltin_spec L H okSource hokS, loadExternal_loaded L H okFile hokF v,
      List.append_assoc]
  have twice : (LoadPlugins L H (LoadPlugins L H w)).loadedPlugins =
      w.loadedPlugins ++ passRecords H okFile okSource ++ passRecords H okFile okSource := by
    rw [once (LoadPlugins L H w), once w]
  refine ⟨once w, twice, ?_⟩
  intro n
  rw [twice, List.count_append, List.count_append]
  omega

/-- Concrete instance: after two runs on the sample configuration the
plugins `foo` and `linter` are recorded twice. -/
theorem LoadPlugins_twice_witness :
    passRecords sampleHost sampleOkFile sampleOkSource = ["foo", "linter"] ∧
    (LoadPlugins sampleLua sampleHost
      (LoadPlugins sampleLua sampleHost sampleLoader)).loadedPlugins =
      sampleLoader.loadedPlugins ++ passRecords sampleHost sampleOkFile sampleOkSource ++
        passRecords sampleHost sampleOkFile sampleOkSource :=
  ⟨by decide,
    (LoadPlugins_twice sampleLua sampleHost sampleOkFile sampleOkSource sampleOkFile_spec
      sampleOkSource_spec sampleLoader).2.1⟩

end Micro
